import Mathlib

/-!
Cognitive-Test: the experiment session of `src/app.js`

A shallow embedding of the session logic of `src/app.js` (the `state` object, the utility
functions, the phase handlers, the scorer and the exporter), followed by theorems about it.

Modelling conventions.

* JavaScript strings are Lean `String`s.  `String.prototype.trim` is `trim` below (the
  ECMAScript WhiteSpace and LineTerminator code points are stripped from both ends).
  `String.prototype.toLowerCase` is a parameter `toLowerCase : String → String` of every function
  that calls it, so the theorems hold for every lowering function, the Unicode one included;
  `toLowerCaseASCII` is its restriction to ASCII letters and is used for concrete runs.
* JavaScript numbers that hold integers are `Nat` or `Int`; times read from `performance.now()`
  and values returned by `Math.random()` are rationals, and arithmetic on them is exact.
  `Math.round x` is `⌊x + 1/2⌋`.
* Arrays are `List`s.  View-layer effects (DOM updates, focus, file download) are left out.
* Timers armed with `setTimeout`/`setInterval` are entries of `World.timers`, identified by the
  handle the call returned; a timer can only fire while it is in that list.
-/

namespace CognitiveTest

/-! ## Strings -/

/-- Code points removed by `String.prototype.trim`: ECMAScript WhiteSpace (TAB, VT, FF, ZWNBSP and
the Unicode space separators) and LineTerminator (LF, CR, LS, PS). -/
def isTrimChar (c : Char) : Bool :=
  let n := c.toNat
  n == 0x09 || n == 0x0A || n == 0x0B || n == 0x0C || n == 0x0D || n == 0x20 || n == 0xA0 ||
  n == 0x1680 || (0x2000 ≤ n && n ≤ 0x200A) || n == 0x2028 || n == 0x2029 || n == 0x202F ||
  n == 0x205F || n == 0x3000 || n == 0xFEFF

/-- The method `String.prototype.trim`. -/
def trim (s : String) : String :=
  ⟨((s.data.dropWhile isTrimChar).reverse.dropWhile isTrimChar).reverse⟩

/-- The method `String.prototype.toLowerCase` on ASCII letters (other characters are kept). -/
def toLowerCaseASCII (s : String) : String :=
  ⟨s.data.map fun c => if 65 ≤ c.toNat ∧ c.toNat ≤ 90 then Char.ofNat (c.toNat + 32) else c⟩

/-! ## Numbers -/

/-- The function `Math.round` on a finite number: the nearest integer, a tie going up. -/
def mathRound (x : ℚ) : Int := ⌊x + 1 / 2⌋

/-- The function `Math.floor` on a finite number. -/
def mathFloor (x : ℚ) : Int := ⌊x⌋

/-- A JavaScript number that is either an integer or `NaN` (the values `state.averageRT` takes). -/
inductive RoundedNumber where
  | int (v : Int)
  | NaN
  deriving DecidableEq, Repr

/-! ## Application state (`const state`, lines 228-251) -/

/-- The `state` object.  `isTrialActive` is not a property of the object literal: it is
`undefined` (`none`) until `startResponseTimePhase` first assigns it. -/
structure State where
  participantId : String
  stimuliWords : List String
  recalledWords : List String
  studyStartTime : Option Int
  timerInterval : Option Nat
  currentTrial : Nat
  totalTrials : Nat
  responseTimes : List Int
  stimulusAppearTime : Option ℚ
  rtTimeout : Option Nat
  memoryScore : Nat
  memoryPercentage : Int
  averageRT : RoundedNumber
  isTrialActive : Option Bool
  wordPool : List String
  deriving DecidableEq

/-- The fixed 30-word pool `state.wordPool`. -/
def wordPool : List String :=
  ["Apple", "Clock", "River", "Mountain", "Garden",
   "Bridge", "Castle", "Ocean", "Forest", "Window",
   "Thunder", "Candle", "Marble", "Sunset", "Anchor",
   "Feather", "Diamond", "Lantern", "Compass", "Velvet",
   "Pyramid", "Crystal", "Shadow", "Meadow", "Whisper",
   "Dragon", "Trophy", "Blanket", "Bottle", "Camera"]

/-- The `state` object as the script creates it. -/
def initialState : State where
  participantId := ""
  stimuliWords := []
  recalledWords := []
  studyStartTime := none
  timerInterval := none
  currentTrial := 1
  totalTrials := 5
  responseTimes := []
  stimulusAppearTime := none
  rtTimeout := none
  memoryScore := 0
  memoryPercentage := 0
  averageRT := .int 0
  isTrialActive := none
  wordPool := wordPool

/-! ## Scorer (`calculateResults`, lines 657-669) -/

/-- The function `calculateResults`.  With no response time `totalRT` is the initial value `0` of
the `reduce`, `0 / 0` is `NaN`, and `Math.round(NaN)` is `NaN`. -/
def calculateResults (toLowerCase : String → String) (s : State) : State :=
  let correctWords := s.recalledWords.filter fun recalled =>
    s.stimuliWords.any fun original => toLowerCase original == toLowerCase recalled
  let totalRT : Int := s.responseTimes.foldl (fun sum rt => sum + rt) 0
  { s with
    memoryScore := correctWords.length
    memoryPercentage := mathRound ((correctWords.length : ℚ) / 10 * 100)
    averageRT :=
      if s.responseTimes.length = 0 then .NaN
      else .int (mathRound ((totalRT : ℚ) / (s.responseTimes.length : ℚ))) }

/-! ## Utility functions (lines 305-316) -/

/-- A value returned by `Math.random()`: a number `r` with `0 ≤ r < 1`. -/
structure RandomValue where
  val : ℚ
  nonneg : 0 ≤ val
  lt_one : val < 1

/-- The index `Math.floor(Math.random() * (i + 1))` drawn at loop index `i`. -/
def drawIndex (r : RandomValue) (i : Nat) : Nat :=
  (mathFloor (r.val * ((i : ℚ) + 1))).toNat

/-- The destructuring swap `[a[i], a[j]] = [a[j], a[i]]`: both reads come first, then `a[i]` and
`a[j]` are written.  The indices `shuffleArray` passes are always inside the array
(`drawIndex_le`: the drawn index is at most the loop index); the last branch is never taken
there. -/
def swapAt {α : Type} (a : List α) (i j : Nat) : List α :=
  match a[i]?, a[j]? with
  | some x, some y => (a.set i y).set j x
  | _, _ => a

/-- The variables of a call of `shuffleArray`: `array` is the caller's array, `shuffled` the local
copy `[...array]`. -/
structure ShuffleFrame (α : Type) where
  array : List α
  shuffled : List α

/-- The `for` loop of `shuffleArray` from loop index `i` down to `1`; `call` counts the calls of
`Math.random()` made so far. -/
def shuffleLoop {α : Type} (random : Nat → RandomValue) :
    Nat → Nat → ShuffleFrame α → ShuffleFrame α
  | 0, _, f => f
  | i + 1, call, f =>
    let j := drawIndex (random call) (i + 1)
    shuffleLoop random i (call + 1) { f with shuffled := swapAt f.shuffled (i + 1) j }

/-- The frame of `shuffleArray(array)` when the loop has ended. -/
def shuffleArrayFrame {α : Type} (array : List α) (random : Nat → RandomValue) : ShuffleFrame α :=
  shuffleLoop random (array.length - 1) 0 { array := array, shuffled := array }

/-- The function `shuffleArray`: the value it returns. -/
def shuffleArray {α : Type} (array : List α) (random : Nat → RandomValue) : List α :=
  (shuffleArrayFrame array random).shuffled

/-- The function `getRandomDelay`. -/
def getRandomDelay (min max : Int) (r : RandomValue) : Int :=
  mathFloor (r.val * (((max - min + 1 : Int) : ℚ))) + min

/-! ## Recall phase (`handleAddWord`, `handleRemoveWord`, lines 478-503) -/

/-- The function `handleAddWord`; `raw` is `elements.recallInput.value`. -/
def handleAddWord (toLowerCase : String → String) (s : State) (raw : String) : State :=
  let word := trim raw
  if word = "" then s
  else
    let alreadyAdded := s.recalledWords.any fun w => toLowerCase w == toLowerCase word
    if alreadyAdded then s
    else { s with recalledWords := s.recalledWords ++ [word] }

/-- The method `Array.prototype.splice(start, deleteCount)` with no inserted items, on integer
arguments: a negative `start` counts from the end, and both are clamped to the array. -/
def splice {α : Type} (a : List α) (start deleteCount : Int) : List α :=
  let len : Int := a.length
  let actualStart : Int := if start < 0 then max (len + start) 0 else min start len
  let actualDeleteCount : Int := min (max deleteCount 0) (len - actualStart)
  a.take actualStart.toNat ++ a.drop (actualStart + actualDeleteCount).toNat

/-- The function `handleRemoveWord`. -/
def handleRemoveWord (s : State) (index : Int) : State :=
  { s with recalledWords := splice s.recalledWords index 1 }

/-! ## Exporter (`exportData`, lines 708-726) -/

/-- An entry of `responseTime.trials`. -/
structure TrialRecord where
  trial : Nat
  responseTimeMs : Int
  deriving DecidableEq, Repr

/-- The property `memoryRecall` of the exported document. -/
structure MemoryRecallRecord where
  stimuliWords : List String
  recalledWords : List String
  correctCount : Nat
  totalWords : Nat
  accuracy : Int
  deriving DecidableEq

/-- The property `responseTime` of the exported document. -/
structure ResponseTimeRecord where
  trials : List TrialRecord
  averageMs : RoundedNumber
  deriving DecidableEq

/-- The object `data` that `exportData` builds. -/
structure ExportDocument where
  participantId : String
  timestamp : String
  memoryRecall : MemoryRecallRecord
  responseTime : ResponseTimeRecord
  deriving DecidableEq

/-- The callback of `state.responseTimes.map(...)`: the element at position `index` becomes the
record with `trial = index + 1` and `responseTimeMs` the element.  `index` is the position of the
first element of the list. -/
def mapTrials : List Int → Nat → List TrialRecord
  | [], _ => []
  | rt :: rest, index => { trial := index + 1, responseTimeMs := rt } :: mapTrials rest (index + 1)

/-- The function `exportData`: the session state after the call and the document `data`;
`timestamp` is `new Date().toISOString()`.  The function assigns to no property of `state`. -/
def exportData (s : State) (timestamp : String) : State × ExportDocument :=
  (s,
   { participantId := s.participantId
     timestamp := timestamp
     memoryRecall :=
       { stimuliWords := s.stimuliWords
         recalledWords := s.recalledWords
         correctCount := s.memoryScore
         totalWords := 10
         accuracy := s.memoryPercentage }
     responseTime :=
       { trials := mapTrials s.responseTimes 0
         averageMs := s.averageRT } })

/-! ## Pages and timers -/

/-- The routes of the `Router` (`this.routes`). -/
inductive Route where
  | landing | study | recall | reaction | results
  deriving DecidableEq, Repr

/-- What a pending timer runs when it fires.  `studyTick` carries the variables `timeRemaining`
and `duration` its closure captured; `view` callbacks only touch the page (focus, result bars). -/
inductive TimerKind where
  | startStudy
  | studyTick (timeRemaining duration : Int)
  | showStimulus
  | feedback
  | view
  deriving DecidableEq, Repr

/-- A pending timer: the handle `setTimeout`/`setInterval` returned, its delay in milliseconds and
its callback. -/
structure Timer where
  id : Nat
  delay : Int
  kind : TimerKind
  deriving DecidableEq, Repr

/-- The running page: the `state` object, the router's current route and the pending timers. -/
structure World where
  state : State
  route : Route
  timers : List Timer
  nextTimerId : Nat
  deriving DecidableEq

/-- What an event handler reads from the platform while it runs: `Date.now()`,
`performance.now()`, and the successive values of `Math.random()` (numbered from `0`). -/
structure Env where
  dateNow : Int
  perfNow : ℚ
  random : Nat → RandomValue

/-- The page when the script has been loaded. -/
def initialWorld : World where
  state := initialState
  route := .landing
  timers := []
  nextTimerId := 1

/-- The calls `setTimeout(callback, delay)` and `setInterval(callback, delay)`: the timer is armed
under the handle `w.nextTimerId`. -/
def armTimer (w : World) (kind : TimerKind) (delay : Int) : World :=
  { w with
    timers := w.timers ++ [{ id := w.nextTimerId, delay := delay, kind := kind }]
    nextTimerId := w.nextTimerId + 1 }

/-- The calls `clearTimeout(handle)` and `clearInterval(handle)`. -/
def clearTimer (w : World) (handle : Nat) : World :=
  { w with timers := w.timers.filter fun t => t.id != handle }

/-- Truthiness of a stored timer handle (`null` and `0` are falsy). -/
def handleTruthy : Option Nat → Bool
  | some h => h != 0
  | none => false

/-- Truthiness of `state.stimulusAppearTime` (`null` and `0` are falsy). -/
def timeTruthy : Option ℚ → Bool
  | some t => t != 0
  | none => false

/-- Truthiness of `state.isTrialActive` (`undefined` and `false` are falsy). -/
def flagTruthy : Option Bool → Bool
  | some b => b
  | none => false

/-! ## Landing page and study phase (lines 368-451) -/

/-- The function `startStudyTimer(duration)`. -/
def startStudyTimer (w : World) (env : Env) (duration : Int) : World :=
  let handle := w.nextTimerId
  let w := armTimer w (.studyTick duration duration) 1000
  { w with state := { w.state with studyStartTime := some env.dateNow, timerInterval := some handle } }

/-- The function `startMemoryStudyPhase`. -/
def startMemoryStudyPhase (w : World) (env : Env) : World :=
  let shuffledWords := shuffleArray w.state.wordPool env.random
  let w := { w with state := { w.state with stimuliWords := shuffledWords.take 10 } }
  let w := { w with route := .study }
  armTimer w .startStudy 300

/-- The function `handleStartExperiment`; `raw` is `elements.participantId.value`. -/
def handleStartExperiment (w : World) (env : Env) (raw : String) : World :=
  let participantId := trim raw
  if participantId = "" then w
  else startMemoryStudyPhase { w with state := { w.state with participantId := participantId } } env

/-- The function `startMemoryRecallPhase`. -/
def startMemoryRecallPhase (w : World) : World :=
  let w := { w with state := { w.state with recalledWords := [] } }
  let w := { w with route := .recall }
  armTimer w .view 300

/-- The callback of the `setInterval` in `startStudyTimer`, run for the pending timer `t` whose
closure holds `timeRemaining` and `duration`. -/
def studyTick (w : World) (t : Timer) (timeRemaining duration : Int) : World :=
  let timeRemaining := timeRemaining - 1
  let w := { w with
    timers := w.timers.map fun u => if u = t then { u with kind := .studyTick timeRemaining duration } else u }
  if timeRemaining ≤ 0 then
    let w := match w.state.timerInterval with
      | some handle => clearTimer w handle
      | none => w
    startMemoryRecallPhase w
  else w

/-! ## Reaction-time phase (lines 528-645) and results (lines 651-655) -/

/-- The function `startResponseTimePhase`. -/
def startResponseTimePhase (w : World) : World :=
  { w with
    state := { w.state with currentTrial := 1, responseTimes := [], isTrialActive := some false }
    route := .reaction }

/-- The function `startTrial`. -/
def startTrial (w : World) (env : Env) : World :=
  let w := { w with state := { w.state with isTrialActive := some true } }
  let delay := getRandomDelay 1500 4000 (env.random 0)
  let handle := w.nextTimerId
  let w := armTimer w .showStimulus delay
  { w with state := { w.state with rtTimeout := some handle } }

/-- The function `startFirstTrial`, the handler of the ready button. -/
def startFirstTrial (w : World) (env : Env) : World :=
  startTrial w env

/-- The function `showStimulus`. -/
def showStimulus (w : World) (env : Env) : World :=
  { w with state := { w.state with stimulusAppearTime := some env.perfNow } }

/-- The function `showFeedbackAndContinue`: it arms the feedback dwell (the handle is not kept). -/
def showFeedbackAndContinue (w : World) : World :=
  armTimer w .feedback 1000

/-- The function `handleStimulusClick`. -/
def handleStimulusClick (w : World) (env : Env) : World :=
  if !flagTruthy w.state.isTrialActive || !timeTruthy w.state.stimulusAppearTime then w
  else
    let clickTime := env.perfNow
    let responseTime := mathRound (clickTime - w.state.stimulusAppearTime.getD 0)
    let w := { w with state := { w.state with isTrialActive := some false } }
    let w := { w with state := { w.state with stimulusAppearTime := none } }
    let w := { w with state := { w.state with responseTimes := w.state.responseTimes ++ [responseTime] } }
    showFeedbackAndContinue w

/-- The function `showResults`; `renderResults` arms two view-only timers. -/
def showResults (toLowerCase : String → String) (w : World) : World :=
  let w := { w with state := calculateResults toLowerCase w.state }
  let w := armTimer (armTimer w .view 300) .view 500
  { w with route := .results }

/-- The callback of the `setTimeout` in `showFeedbackAndContinue`. -/
def feedbackContinue (toLowerCase : String → String) (w : World) (env : Env) : World :=
  if w.state.currentTrial ≥ w.state.totalTrials then showResults toLowerCase w
  else startTrial { w with state := { w.state with currentTrial := w.state.currentTrial + 1 } } env

/-- The function `restartExperiment`. -/
def restartExperiment (w : World) : World :=
  let w := if handleTruthy w.state.timerInterval then clearTimer w (w.state.timerInterval.getD 0) else w
  let w := if handleTruthy w.state.rtTimeout then clearTimer w (w.state.rtTimeout.getD 0) else w
  { w with
    state := { w.state with
      participantId := "", stimuliWords := [], recalledWords := [], currentTrial := 1,
      responseTimes := [] }
    route := .landing }

/-- A pending timer fires: a one-shot timer leaves the pending list, then its callback runs. -/
def fireTimer (toLowerCase : String → String) (w : World) (env : Env) (t : Timer) : World :=
  match t.kind with
  | .startStudy => startStudyTimer { w with timers := w.timers.erase t } env 30
  | .studyTick timeRemaining duration => studyTick w t timeRemaining duration
  | .showStimulus => showStimulus { w with timers := w.timers.erase t } env
  | .feedback => feedbackContinue toLowerCase { w with timers := w.timers.erase t } env
  | .view => { w with timers := w.timers.erase t }

/-- The inputs the page reacts to. -/
inductive Event where
  | submitParticipant (raw : String)
  | addWord (raw : String)
  | removeWord (index : Int)
  | finishRecall
  | ready
  | stimulusClick
  | timerFires (handle : Nat)
  | restart

/-- One event is handled.  A timer that is not pending cannot fire (`none`). -/
def step (toLowerCase : String → String) (w : World) (env : Env) : Event → Option World
  | .submitParticipant raw => some (handleStartExperiment w env raw)
  | .addWord raw => some { w with state := handleAddWord toLowerCase w.state raw }
  | .removeWord index => some { w with state := handleRemoveWord w.state index }
  | .finishRecall => some (startResponseTimePhase w)
  | .ready => some (startFirstTrial w env)
  | .stimulusClick => some (handleStimulusClick w env)
  | .timerFires handle =>
    match w.timers.find? fun t => t.id == handle with
    | some t => some (fireTimer toLowerCase w env t)
    | none => none
  | .restart => some (restartExperiment w)

/-- The events of the reaction-time phase after the ready trigger: a pre-stimulus delay or a
feedback dwell expires, or the stimulus is clicked at a time no earlier than the stimulus onset. -/
def reactionEventOk (w : World) (env : Env) : Event → Bool
  | .stimulusClick =>
    match w.state.stimulusAppearTime with
    | some onset => decide (onset ≤ env.perfNow)
    | none => true
  | .timerFires handle =>
    match w.timers.find? fun t => t.id == handle with
    | some t => t.kind == .showStimulus || t.kind == .feedback
    | none => false
  | _ => false

/-- A sequence of reaction-time events is handled in order; `none` when an event is not one of
`reactionEventOk`. -/
def runReaction (toLowerCase : String → String) : World → List (Env × Event) → Option World
  | w, [] => some w
  | w, (env, ev) :: rest =>
    if reactionEventOk w env ev then
      match step toLowerCase w env ev with
      | some w => runReaction toLowerCase w rest
      | none => none
    else none

/-- The number of feedback dwells that are pending. -/
def pendingFeedback (w : World) : Nat :=
  w.timers.countP fun t => t.kind == .feedback

/-- The invariant of the reaction-time phase: `totalTrials` is 5, `currentTrial` is between 1 and
5, every recorded time is non-negative, at most one feedback dwell is pending and none while a
trial is active; before the results page is shown the recorded times are those of the earlier
trials plus the one whose dwell is pending, and once it is shown there are 5 of them and no trial
is active. -/
def ReactionInv (w : World) : Prop :=
  w.state.totalTrials = 5 ∧
  1 ≤ w.state.currentTrial ∧
  w.state.currentTrial ≤ 5 ∧
  (∀ x ∈ w.state.responseTimes, 0 ≤ x) ∧
  (flagTruthy w.state.isTrialActive = true → pendingFeedback w = 0) ∧
  (w.route ≠ Route.results →
    w.state.responseTimes.length + 1 = w.state.currentTrial + pendingFeedback w) ∧
  (w.route = Route.results →
    w.state.responseTimes.length = 5 ∧ flagTruthy w.state.isTrialActive = false ∧
      pendingFeedback w = 0) ∧
  pendingFeedback w ≤ 1

/-- A sample platform reading: every `Math.random()` returns `0`, the clocks read `now`. -/
def sampleEnv (now : ℚ) : Env where
  dateNow := 1700000000000
  perfNow := now
  random := fun _ => { val := 0, nonneg := le_refl 0, lt_one := zero_lt_one }

/-- One sample trial whose delay timer has handle `h`: the delay expires at time `onset`, the
stimulus is clicked at time `click`, and the feedback dwell (handle `h + 1`) expires. -/
def sampleTrial (h : Nat) (onset click : ℚ) : List (Env × Event) :=
  [(sampleEnv onset, .timerFires h), (sampleEnv click, .stimulusClick),
   (sampleEnv (click + 1000), .timerFires (h + 1))]

/-- A sample run of the five trials after the ready trigger on the freshly loaded page. -/
def sampleTrials : List (Env × Event) :=
  sampleTrial 1 1500 (3501 / 2) ++ sampleTrial 3 5000 5300 ++ sampleTrial 5 9000 (18801 / 2) ++
    sampleTrial 7 13000 13275 ++ sampleTrial 9 17000 (17000 + 1 / 4)

/-- The page in which the sample run ends. -/
def sampleFinal : World :=
  (runReaction toLowerCaseASCII (startFirstTrial (startResponseTimePhase initialWorld)
    (sampleEnv 0)) sampleTrials).getD initialWorld

/-- A page on which the stimulus of a trial is shown (onset at time 1500). -/
def sampleStimulusShown : World :=
  { initialWorld with
    state := { initialState with isTrialActive := some true, stimulusAppearTime := some 1500 }
    route := .reaction }

/-- A sequence of events is handled in order; `none` when a timer that is not pending is asked
to fire. -/
def runEvents (toLowerCase : String → String) : World → List (Env × Event) → Option World
  | w, [] => some w
  | w, (env, ev) :: rest =>
    match step toLowerCase w env ev with
    | some w => runEvents toLowerCase w rest
    | none => none

/-- A sample session up to the first stimulus click: the id " P-01 " is submitted, the study
countdown (handle 2) runs its 30 ticks, three words are recalled, and in the first reaction-time
trial the stimulus (delay handle 4) appears at time 1500 and is clicked at time 1750.5; the
feedback dwell (handle 5) is then pending. -/
def sampleToFeedback : List (Env × Event) :=
  [(sampleEnv 0, .submitParticipant " P-01 "), (sampleEnv 0, .timerFires 1)] ++
    List.replicate 30 (sampleEnv 0, .timerFires 2) ++
    [(sampleEnv 0, .addWord "clock"), (sampleEnv 0, .addWord "Zebra"),
     (sampleEnv 0, .addWord " River "), (sampleEnv 0, .finishRecall), (sampleEnv 0, .ready),
     (sampleEnv 1500, .timerFires 4), (sampleEnv (3501 / 2), .stimulusClick)]

/-- The rest of the sample session: the first feedback dwell expires and the trials 2 to 5 run,
which shows the results. -/
def sampleToResults : List (Env × Event) :=
  [(sampleEnv 2751, .timerFires 5)] ++ sampleTrial 6 5000 5300 ++
    sampleTrial 8 9000 (18801 / 2) ++ sampleTrial 10 13000 13275 ++
    sampleTrial 12 17000 (17000 + 1 / 4)

/-- The page of the sample session while the first feedback dwell is pending. -/
def sampleFeedbackWorld : World :=
  (runEvents toLowerCaseASCII initialWorld sampleToFeedback).getD initialWorld

/-- The page of the sample session when the results are shown. -/
def sampleResultsWorld : World :=
  (runEvents toLowerCaseASCII sampleFeedbackWorld sampleToResults).getD initialWorld

/-- The reaction-time events after the phase is entered again from `sampleFeedbackWorld` (finish
recall at time 2000, ready at time 2100) while the feedback dwell of the earlier trial (handle 5)
is pending: that dwell expires at time 2750.5, then four stimuli are shown and each is clicked
300 ms after its onset.  Every pre-stimulus delay is 1500 ms and every dwell 1000 ms. -/
def sampleStaleDwell : List (Env × Event) :=
  [(sampleEnv (5501 / 2), .timerFires 5),
   (sampleEnv 3600, .timerFires 6), (sampleEnv 3900, .stimulusClick),
   (sampleEnv (8501 / 2), .timerFires 7), (sampleEnv 4900, .timerFires 8),
   (sampleEnv 6400, .timerFires 9), (sampleEnv 6700, .stimulusClick),
   (sampleEnv 7700, .timerFires 10),
   (sampleEnv 9200, .timerFires 11), (sampleEnv 9500, .stimulusClick),
   (sampleEnv 10500, .timerFires 12),
   (sampleEnv 12000, .timerFires 13), (sampleEnv 12300, .stimulusClick),
   (sampleEnv 13300, .timerFires 14)]

/-! ## Index draws of the shuffle -/

/-- The index draws of one call of `shuffleArray` on an array of length `n`: for each loop index
`i = k + 1` (the loop runs from `n - 1` down to `1`) an index `j` with `0 ≤ j ≤ i`. -/
abbrev DrawSeq (n : Nat) : Type :=
  (k : Fin (n - 1)) → Fin (k.val + 2)

/-- The index a draw sequence holds for loop index `i` (`0` when the loop never reaches `i`). -/
def DrawSeq.index {n : Nat} (d : DrawSeq n) (i : Nat) : Nat :=
  if h : 1 ≤ i ∧ i < n then (d ⟨i - 1, by omega⟩).val else 0

/-- The `for` loop of `shuffleArray` from loop index `i` down to `1`, the index drawn at loop
index `k` being `draw k`. -/
def shuffleLoopDraws {α : Type} (draw : Nat → Nat) : Nat → List α → List α
  | 0, a => a
  | i + 1, a => shuffleLoopDraws draw i (swapAt a (i + 1) (draw (i + 1)))

/-- The array `shuffleArray(array)` returns when its index draws are `d`. -/
def shuffleByDraws {α : Type} (array : List α) (d : DrawSeq array.length) : List α :=
  shuffleLoopDraws d.index (array.length - 1) array

/-- The index draws `shuffleArray` makes on an array of length `n` from the values of
`Math.random()`: loop index `i` is reached at call number `n - 1 - i`. -/
def drawsOf (n : Nat) (random : Nat → RandomValue) : DrawSeq n :=
  fun k =>
    ⟨drawIndex (random (n - 1 - (k.val + 1))) (k.val + 1), by
      have hpos : (0 : ℚ) < ((k.val + 1 : Nat) : ℚ) + 1 := by positivity
      have hlt : (random (n - 1 - (k.val + 1))).val * (((k.val + 1 : Nat) : ℚ) + 1) <
          ((((k.val + 1 : Nat) : Int) + 1 : Int) : ℚ) := by
        push_cast
        calc (random (n - 1 - (k.val + 1))).val * ((k.val : ℚ) + 1 + 1)
            < 1 * ((k.val : ℚ) + 1 + 1) :=
              mul_lt_mul_of_pos_right (random _).lt_one (by positivity)
          _ = (k.val : ℚ) + 1 + 1 := one_mul _
      have hfl := Int.floor_lt.2 hlt
      unfold drawIndex mathFloor
      omega⟩

/-! ## Scorer: memory score -/

theorem any_lower_iff (toLowerCase : String → String) (l : List String) (r : String) :
    (l.any fun original => toLowerCase original == toLowerCase r) = true ↔
      ∃ o ∈ l, toLowerCase o = toLowerCase r := by
  simp [List.any_eq_true]

theorem mathRound_eq_round (x : ℚ) : mathRound x = round x := by
  simp [mathRound, round_eq]

theorem mathRound_tenths (n : Nat) : mathRound ((n : ℚ) / 10 * 100) = 10 * (n : Int) := by
  have h : (n : ℚ) / 10 * 100 + 1 / 2 = ((10 * (n : Int) : Int) : ℚ) + 1 / 2 := by
    push_cast; ring
  rw [mathRound, h, Int.floor_int_add]
  norm_num

theorem pool_lower_ne_zebra :
    ∀ o ∈ wordPool, toLowerCaseASCII o ≠ toLowerCaseASCII "Zebra" := by
  decide

/-- C1: `calculateResults` sets `memoryScore` to the number of entries of `recalledWords` that
equal, lower-cased, at least one entry of `stimuliWords` (an entry counts once however many
stimulus words it matches) and `memoryPercentage` to `round(memoryScore / 10 * 100)`, which is
`10 * memoryScore` whatever the length of `stimuliWords`; with stimulus words beginning Apple,
Clock, River (the others taken from the pool) and recalled words apple, Clock, Zebra the score is
2 and the percentage 20. -/
theorem calculateResults_memory (toLowerCase : String → String) (s : State) :
    (calculateResults toLowerCase s).memoryScore =
        s.recalledWords.countP
          (fun r => decide (∃ o ∈ s.stimuliWords, toLowerCase o = toLowerCase r)) ∧
      (calculateResults toLowerCase s).memoryPercentage =
        round (((calculateResults toLowerCase s).memoryScore : ℚ) / 10 * 100) ∧
      (calculateResults toLowerCase s).memoryPercentage =
        10 * ((calculateResults toLowerCase s).memoryScore : Int) ∧
      ∀ rest : List String, (∀ o ∈ rest, o ∈ wordPool) →
        (calculateResults toLowerCaseASCII { s with
            stimuliWords := "Apple" :: "Clock" :: "River" :: rest
            recalledWords := ["apple", "Clock", "Zebra"] }).memoryScore = 2 ∧
        (calculateResults toLowerCaseASCII { s with
            stimuliWords := "Apple" :: "Clock" :: "River" :: rest
            recalledWords := ["apple", "Clock", "Zebra"] }).memoryPercentage = 20 := by
  have hscore : ∀ (lower : String → String) (t : State),
      (calculateResults lower t).memoryScore =
        t.recalledWords.countP (fun r => decide (∃ o ∈ t.stimuliWords, lower o = lower r)) := by
    intro lower t
    simp only [calculateResults, List.countP_eq_length_filter]
    congr 2
    funext r
    rw [Bool.eq_iff_iff, any_lower_iff]
    simp
  have hpct : ∀ (lower : String → String) (t : State),
      (calculateResults lower t).memoryPercentage =
        10 * ((calculateResults lower t).memoryScore : Int) := by
    intro lower t
    simp only [calculateResults]
    exact mathRound_tenths _
  refine ⟨hscore _ _, ?_, hpct _ _, ?_⟩
  · simp only [calculateResults]
    exact mathRound_eq_round _
  · intro rest hrest
    have hz : ∀ o ∈ rest, toLowerCaseASCII o ≠ toLowerCaseASCII "Zebra" :=
      fun o ho => pool_lower_ne_zebra o (hrest o ho)
    have h2 : (calculateResults toLowerCaseASCII { s with
            stimuliWords := "Apple" :: "Clock" :: "River" :: rest
            recalledWords := ["apple", "Clock", "Zebra"] }).memoryScore = 2 := by
      rw [hscore]
      have ha : toLowerCaseASCII "Apple" = toLowerCaseASCII "apple" := by decide
      have hza : toLowerCaseASCII "apple" ≠ toLowerCaseASCII "Zebra" := by decide
      have hzc : toLowerCaseASCII "Clock" ≠ toLowerCaseASCII "Zebra" := by decide
      have hzr : toLowerCaseASCII "River" ≠ toLowerCaseASCII "Zebra" := by decide
      have hnz : ¬ ∃ o ∈ rest, toLowerCaseASCII o = toLowerCaseASCII "Zebra" := by
        rintro ⟨o, ho, h⟩
        exact hz o ho h
      simp [List.countP_cons, ha, hza, hzc, hzr, hnz]
    refine ⟨h2, ?_⟩
    rw [hpct, h2]
    rfl

/-- Witness of C1: the stimulus list is the first ten words of the pool. -/
theorem calculateResults_memory_witness :
    (∀ o ∈ wordPool.drop 3, o ∈ wordPool) ∧
      (calculateResults toLowerCaseASCII { initialState with
          stimuliWords := "Apple" :: "Clock" :: "River" :: wordPool.drop 3
          recalledWords := ["apple", "Clock", "Zebra"] }).memoryScore = 2 ∧
      (calculateResults toLowerCaseASCII { initialState with
          stimuliWords := "Apple" :: "Clock" :: "River" :: wordPool.drop 3
          recalledWords := ["apple", "Clock", "Zebra"] }).memoryPercentage = 20 :=
  ⟨by decide,
   (calculateResults_memory toLowerCaseASCII initialState).2.2.2 (wordPool.drop 3) (by decide)⟩

/-! ## Exporter -/

theorem mapTrials_length (l : List Int) (k : Nat) : (mapTrials l k).length = l.length := by
  induction l generalizing k with
  | nil => rfl
  | cons rt rest ih => simp [mapTrials, ih]

theorem mapTrials_getElem? (l : List Int) (k i : Nat) :
    (mapTrials l k)[i]? =
      l[i]?.map fun rt => ({ trial := k + i + 1, responseTimeMs := rt } : TrialRecord) := by
  induction l generalizing k i with
  | nil => simp [mapTrials]
  | cons rt rest ih =>
    cases i with
    | zero => simp [mapTrials]
    | succ i =>
      simp only [mapTrials, List.getElem?_cons_succ, ih]
      congr 1
      funext x
      congr 1
      omega

theorem mapTrials_times (l : List Int) (k : Nat) :
    (mapTrials l k).map (fun r => r.responseTimeMs) = l := by
  induction l generalizing k with
  | nil => rfl
  | cons rt rest ih => simp [mapTrials, ih]

/-- C2: the document `exportData` builds holds the session's `stimuliWords` and `recalledWords`
unchanged, `responseTime.trials` has the length of `responseTimes`, its entry at every index `i`
is the record with `trial = i + 1` and `responseTimeMs = responseTimes[i]` (so the per-trial
times are recovered in order), and the session state after the call is the state before it. -/
theorem exportData_roundtrip (s : State) (timestamp : String) :
    (exportData s timestamp).2.memoryRecall.stimuliWords = s.stimuliWords ∧
      (exportData s timestamp).2.memoryRecall.recalledWords = s.recalledWords ∧
      (exportData s timestamp).2.responseTime.trials.length = s.responseTimes.length ∧
      (∀ i : Nat, (exportData s timestamp).2.responseTime.trials[i]? =
        s.responseTimes[i]?.map fun rt => ({ trial := i + 1, responseTimeMs := rt } : TrialRecord)) ∧
      (exportData s timestamp).2.responseTime.trials.map (fun r => r.responseTimeMs) =
        s.responseTimes ∧
      (exportData s timestamp).1 = s := by
  refine ⟨rfl, rfl, mapTrials_length _ _, ?_, mapTrials_times _ _, rfl⟩
  intro i
  simp only [exportData]
  rw [mapTrials_getElem?]
  simp

/-! ## Recall phase -/

/-- C3: on the trimmed input `w`, `handleAddWord` leaves the state (so `recalledWords`) unchanged
when `w` is empty or when an entry of `recalledWords` equals `w` lower-cased, and otherwise
appends `w` as the last element, the earlier entries kept in order; adding "Apple" and then
"apple" to an empty list leaves one entry. -/
theorem handleAddWord_spec (toLowerCase : String → String) (s : State) (raw : String) :
    (trim raw = "" → handleAddWord toLowerCase s raw = s) ∧
      ((∃ w ∈ s.recalledWords, toLowerCase w = toLowerCase (trim raw)) →
        handleAddWord toLowerCase s raw = s) ∧
      (trim raw ≠ "" → (¬ ∃ w ∈ s.recalledWords, toLowerCase w = toLowerCase (trim raw)) →
        handleAddWord toLowerCase s raw =
          { s with recalledWords := s.recalledWords ++ [trim raw] }) ∧
      (handleAddWord toLowerCaseASCII
        (handleAddWord toLowerCaseASCII { s with recalledWords := [] } "Apple")
        "apple").recalledWords.length = 1 := by
  have hany : (s.recalledWords.any fun w => toLowerCase w == toLowerCase (trim raw)) = true ↔
      ∃ w ∈ s.recalledWords, toLowerCase w = toLowerCase (trim raw) :=
    any_lower_iff toLowerCase s.recalledWords (trim raw)
  refine ⟨?_, ?_, ?_, ?_⟩
  · intro h
    simp [handleAddWord, h]
  · intro h
    simp only [handleAddWord]
    rw [hany.2 h]
    simp
  · intro h1 h2
    have h3 : (s.recalledWords.any fun w => toLowerCase w == toLowerCase (trim raw)) = false := by
      rw [Bool.eq_false_iff]
      exact fun h => h2 (hany.1 h)
    simp only [handleAddWord]
    rw [h3]
    simp [h1]
  · have h1 : trim "Apple" = "Apple" := by decide
    have h2 : trim "apple" = "apple" := by decide
    have h3 : toLowerCaseASCII "Apple" = toLowerCaseASCII "apple" := by decide
    simp [handleAddWord, h1, h2, h3]

/-- Witness of C3: a blank input, a duplicate in another case, and a new word. -/
theorem handleAddWord_spec_witness :
    handleAddWord toLowerCaseASCII initialState "  \t " = initialState ∧
      handleAddWord toLowerCaseASCII { initialState with recalledWords := ["Apple"] } " apple " =
        { initialState with recalledWords := ["Apple"] } ∧
      handleAddWord toLowerCaseASCII { initialState with recalledWords := ["Apple"] } " River " =
        { initialState with recalledWords := ["Apple"] ++ [trim " River "] } :=
  ⟨(handleAddWord_spec toLowerCaseASCII initialState "  \t ").1 (by decide),
   (handleAddWord_spec toLowerCaseASCII { initialState with recalledWords := ["Apple"] }
      " apple ").2.1 ⟨"Apple", by decide, by decide⟩,
   (handleAddWord_spec toLowerCaseASCII { initialState with recalledWords := ["Apple"] }
      " River ").2.2.1 (by decide) (by decide)⟩

theorem splice_one {α : Type} (a : List α) (start : Int) :
    splice a start 1 =
      a.eraseIdx (if start < 0 then max ((a.length : Int) + start) 0
        else min start (a.length : Int)).toNat := by
  simp only [splice]
  generalize hk : (if start < 0 then max ((a.length : Int) + start) 0
    else min start (a.length : Int)) = k
  have hk0 : 0 ≤ k := by
    rw [← hk]; split <;> omega
  have hkl : k ≤ (a.length : Int) := by
    rw [← hk]; split <;> omega
  obtain ⟨n, rfl⟩ := Int.eq_ofNat_of_zero_le hk0
  have hn : n ≤ a.length := by omega
  rw [List.eraseIdx_eq_take_drop_succ]
  by_cases hlt : n < a.length
  · have h1 : min (max (1 : Int) 0) ((a.length : Int) - (n : Int)) = 1 := by omega
    rw [h1]
    have h2 : ((n : Int) + 1).toNat = n + 1 := by omega
    rw [h2]
    simp
  · have hnl : n = a.length := by omega
    have h1 : min (max (1 : Int) 0) ((a.length : Int) - (n : Int)) = 0 := by omega
    rw [h1]
    simp [hnl]

/-- C4 does not hold as stated: with one recalled word, `handleRemoveWord(-1)` removes it,
although the index `-1` is out of bounds. -/
theorem handleRemoveWord_negative_counterexample :
    ((-1 : Int) < 0) ∧
      (handleRemoveWord { initialState with recalledWords := ["Apple"] } (-1)).recalledWords = [] ∧
      (handleRemoveWord { initialState with recalledWords := ["Apple"] } (-1)).recalledWords ≠
        ({ initialState with recalledWords := ["Apple"] } : State).recalledWords := by
  decide

/-- C4, amended: for `0 ≤ index < length`, `handleRemoveWord(index)` removes exactly the entry at
that position (the others stay in order, the length drops by 1); for `index ≥ length` it leaves
the state unchanged; for a negative index `splice` counts from the end, so the entry at position
`max(length + index, 0)` is removed; adding "Apple" and removing index 0 leaves an empty list. -/
theorem handleRemoveWord_spec (s : State) (index : Int) :
    (0 ≤ index → index < (s.recalledWords.length : Int) →
        handleRemoveWord s index =
          { s with recalledWords := s.recalledWords.eraseIdx index.toNat } ∧
        (handleRemoveWord s index).recalledWords.length + 1 = s.recalledWords.length) ∧
      ((s.recalledWords.length : Int) ≤ index → handleRemoveWord s index = s) ∧
      (index < 0 →
        handleRemoveWord s index =
          { s with recalledWords :=
              s.recalledWords.eraseIdx (max ((s.recalledWords.length : Int) + index) 0).toNat }) ∧
      (handleRemoveWord
        (handleAddWord toLowerCaseASCII { s with recalledWords := [] } "Apple") 0).recalledWords =
        [] := by
  refine ⟨?_, ?_, ?_, ?_⟩
  · intro h0 hlt
    have hidx : (if index < 0 then max ((s.recalledWords.length : Int) + index) 0
        else min index (s.recalledWords.length : Int)) = index := by
      rw [if_neg (by omega)]; omega
    have hrm : handleRemoveWord s index =
        { s with recalledWords := s.recalledWords.eraseIdx index.toNat } := by
      simp only [handleRemoveWord, splice_one, hidx]
    refine ⟨hrm, ?_⟩
    rw [hrm]
    simp only [List.length_eraseIdx]
    rw [if_pos (by omega)]
    omega
  · intro hge
    have hidx : (if index < 0 then max ((s.recalledWords.length : Int) + index) 0
        else min index (s.recalledWords.length : Int)) = (s.recalledWords.length : Int) := by
      rw [if_neg (by omega)]; omega
    simp only [handleRemoveWord, splice_one, hidx, Int.toNat_ofNat]
    rw [List.eraseIdx_of_length_le (Nat.le_refl _)]
  · intro hneg
    simp only [handleRemoveWord, splice_one]
    rw [if_pos hneg]
  · have h1 : trim "Apple" = "Apple" := by decide
    simp [handleAddWord, handleRemoveWord, splice_one, h1]

/-- Witness of C4, amended: index 1 of three words, index 3 of three words, index -1 of three
words. -/
theorem handleRemoveWord_spec_witness :
    (handleRemoveWord { initialState with recalledWords := ["Apple", "Clock", "River"] } 1 =
        { initialState with recalledWords := ["Apple", "River"] } ∧
      (handleRemoveWord { initialState with
        recalledWords := ["Apple", "Clock", "River"] } 1).recalledWords.length + 1 = 3) ∧
      handleRemoveWord { initialState with recalledWords := ["Apple", "Clock", "River"] } 3 =
        { initialState with recalledWords := ["Apple", "Clock", "River"] } ∧
      handleRemoveWord { initialState with recalledWords := ["Apple", "Clock", "River"] } (-1) =
        { initialState with recalledWords := ["Apple", "Clock"] } :=
  ⟨(handleRemoveWord_spec { initialState with recalledWords := ["Apple", "Clock", "River"] }
      1).1 (by decide) (by decide),
   (handleRemoveWord_spec { initialState with recalledWords := ["Apple", "Clock", "River"] }
      3).2.1 (by decide),
   (handleRemoveWord_spec { initialState with recalledWords := ["Apple", "Clock", "River"] }
      (-1)).2.2.1 (by decide)⟩

/-! ## Shuffle -/

theorem drawIndex_le (r : RandomValue) (i : Nat) : drawIndex r i ≤ i := by
  have hpos : (0 : ℚ) < (i : ℚ) + 1 := by positivity
  have hlt : r.val * ((i : ℚ) + 1) < (((i : Int) + 1 : Int) : ℚ) := by
    push_cast
    calc r.val * ((i : ℚ) + 1) < 1 * ((i : ℚ) + 1) := mul_lt_mul_of_pos_right r.lt_one hpos
      _ = (i : ℚ) + 1 := one_mul _
  have hfl : mathFloor (r.val * ((i : ℚ) + 1)) < (i : Int) + 1 := Int.floor_lt.2 hlt
  unfold drawIndex
  omega

theorem drawIndex_surjective (i : Nat) (j : Fin (i + 1)) :
    ∃ r : RandomValue, drawIndex r i = j.val := by
  have hpos : (0 : ℚ) < (i : ℚ) + 1 := by positivity
  have hj : ((j.val : ℕ) : ℚ) < (i : ℚ) + 1 := by
    have := j.isLt
    exact_mod_cast this
  refine ⟨{ val := (j.val : ℚ) / ((i : ℚ) + 1)
            nonneg := by positivity
            lt_one := (div_lt_one hpos).2 hj }, ?_⟩
  simp only [drawIndex, mathFloor]
  rw [div_mul_cancel₀ _ (ne_of_gt hpos)]
  simp

theorem swapAt_perm {α : Type} (a : List α) (i j : Nat) : (swapAt a i j).Perm a := by
  classical
  unfold swapAt
  split
  · rename_i x y hx hy
    obtain ⟨hi, hxi⟩ := List.getElem?_eq_some.1 hx
    obtain ⟨hj, hyj⟩ := List.getElem?_eq_some.1 hy
    rw [List.perm_iff_count]
    intro b
    have hj' : j < (a.set i y).length := by simpa using hj
    rw [List.count_set _ _ _ _ hj', List.count_set _ _ _ _ hi, List.getElem_set]
    have hcx : a[i] = b → 0 < a.count b := fun h =>
      List.count_pos_iff.2 (h ▸ List.getElem_mem hi)
    subst hxi hyj
    by_cases hij : i = j
    · subst hij
      simp
      by_cases hb : a[i] = b <;> simp [hb]
      have := hcx hb
      omega
    · simp only [hij, if_false, beq_iff_eq]
      by_cases hb1 : a[i] = b <;> by_cases hb2 : a[j] = b <;> simp [hb1, hb2]
      · have := hcx hb1; omega
      · have := hcx hb1; omega
  · rfl

theorem shuffleLoop_spec {α : Type} (random : Nat → RandomValue) (i call : Nat)
    (f : ShuffleFrame α) :
    (shuffleLoop random i call f).shuffled.Perm f.shuffled ∧
      (shuffleLoop random i call f).array = f.array := by
  induction i generalizing call f with
  | zero => exact ⟨List.Perm.refl _, rfl⟩
  | succ i ih =>
    simp only [shuffleLoop]
    obtain ⟨h1, h2⟩ := ih (call + 1)
      { f with shuffled := swapAt f.shuffled (i + 1) (drawIndex (random call) (i + 1)) }
    exact ⟨h1.trans (swapAt_perm _ _ _), h2⟩

theorem shuffle_is_perm {α : Type} (array : List α) (random : Nat → RandomValue) :
    (shuffleArray array random).Perm array :=
  (shuffleLoop_spec random (array.length - 1) 0 { array := array, shuffled := array }).1

/-- C8: for every input array and every sequence of values of `Math.random()`, `shuffleArray`
returns a permutation of the input (same multiset of elements, same length) and the input array
is left as it was; the index drawn at loop index `i` is at most `i`, and every index `j ≤ i` is
drawn for some random value, so this covers every sequence of index draws. -/
theorem shuffleArray_perm {α : Type} (array : List α) (random : Nat → RandomValue) :
    (shuffleArray array random).Perm array ∧
      ((shuffleArray array random : List α) : Multiset α) = (array : Multiset α) ∧
      (shuffleArray array random).length = array.length ∧
      (shuffleArrayFrame array random).array = array ∧
      (∀ (r : RandomValue) (i : Nat), drawIndex r i ≤ i) ∧
      (∀ (i : Nat) (j : Fin (i + 1)), ∃ r : RandomValue, drawIndex r i = j.val) := by
  have h := shuffleLoop_spec random (array.length - 1) 0 { array := array, shuffled := array }
  have hp : (shuffleArray array random).Perm array := h.1
  exact ⟨hp, Quotient.sound hp, hp.length_eq, h.2, drawIndex_le, drawIndex_surjective⟩

/-! ## Landing page -/

theorem wordPool_nodup : wordPool.Nodup := by
  decide

/-- C7: for every participant id that is non-empty after trimming and every outcome of the
random draws, `handleStartExperiment` (which runs `startMemoryStudyPhase`) leaves
`participantId` equal to the trimmed id and `stimuliWords` with exactly 10 entries, pairwise
distinct and all taken from the 30-word pool, on the study page. -/
theorem handleStartExperiment_stimuli (w : World) (env : Env) (raw : String)
    (hid : trim raw ≠ "") (hpool : w.state.wordPool = wordPool) :
    (handleStartExperiment w env raw).state.participantId = trim raw ∧
      (handleStartExperiment w env raw).state.stimuliWords.length = 10 ∧
      (handleStartExperiment w env raw).state.stimuliWords.Nodup ∧
      (∀ x ∈ (handleStartExperiment w env raw).state.stimuliWords, x ∈ wordPool) ∧
      (handleStartExperiment w env raw).route = Route.study := by
  have hperm : (shuffleArray wordPool env.random).Perm wordPool :=
    (shuffle_is_perm wordPool env.random)
  have hst : (handleStartExperiment w env raw).state.stimuliWords =
      (shuffleArray wordPool env.random).take 10 := by
    simp [handleStartExperiment, hid, startMemoryStudyPhase, armTimer, hpool]
  refine ⟨?_, ?_, ?_, ?_, ?_⟩
  · simp [handleStartExperiment, hid, startMemoryStudyPhase, armTimer]
  · rw [hst, List.length_take, hperm.length_eq]
    decide
  · rw [hst]
    exact ((hperm.nodup_iff).2 wordPool_nodup).sublist (List.take_sublist _ _)
  · intro x hx
    rw [hst] at hx
    exact hperm.subset (List.mem_of_mem_take hx)
  · simp [handleStartExperiment, hid, startMemoryStudyPhase, armTimer]

/-- Witness of C7: the id " P-01 " is submitted on the freshly loaded page. -/
theorem handleStartExperiment_stimuli_witness :
    trim " P-01 " ≠ "" ∧ initialWorld.state.wordPool = wordPool ∧
      (handleStartExperiment initialWorld (sampleEnv 0) " P-01 ").state.participantId = "P-01" ∧
      (handleStartExperiment initialWorld (sampleEnv 0) " P-01 ").state.stimuliWords.length = 10 ∧
      (handleStartExperiment initialWorld (sampleEnv 0) " P-01 ").state.stimuliWords.Nodup ∧
      (∀ x ∈ (handleStartExperiment initialWorld (sampleEnv 0) " P-01 ").state.stimuliWords,
        x ∈ wordPool) ∧
      (handleStartExperiment initialWorld (sampleEnv 0) " P-01 ").route = Route.study :=
  ⟨by decide, rfl,
   handleStartExperiment_stimuli initialWorld (sampleEnv 0) " P-01 " (by decide) rfl⟩

/-! ## Scorer: average response time -/

theorem foldl_add_eq_sum (l : List Int) : l.foldl (fun sum rt => sum + rt) 0 = l.sum :=
  List.sum_eq_foldl.symm

theorem mathRound_div (a : Int) (n : Nat) (hn : n ≠ 0) :
    mathRound ((a : ℚ) / (n : ℚ)) = (2 * a + n) / (2 * n) := by
  have hq : (n : ℚ) ≠ 0 := Nat.cast_ne_zero.2 hn
  have h : (a : ℚ) / (n : ℚ) + 1 / 2 = (((2 * a + n : Int)) : ℚ) / (((2 * n : Nat)) : ℚ) := by
    push_cast
    field_simp
    ring
  rw [mathRound, h, Rat.floor_intCast_div_natCast]
  push_cast
  rfl

theorem averageRT_eq (toLowerCase : String → String) (s : State) (hne : s.responseTimes ≠ []) :
    (calculateResults toLowerCase s).averageRT =
      .int (mathRound ((s.responseTimes.sum : ℚ) / (s.responseTimes.length : ℚ))) := by
  have hlen : s.responseTimes.length ≠ 0 := fun h => hne (List.length_eq_zero.1 h)
  simp only [calculateResults, foldl_add_eq_sum]
  rw [if_neg hlen]

/-- C9: for every non-empty `responseTimes`, `calculateResults` sets `averageRT` to the mean of
the entries rounded to the nearest integer, a tie of one half going up: with `n` entries of sum
`sum` this is `floor((2 * sum + n) / (2 * n))`; for `[300, 400, 500]` it is 400. -/
theorem calculateResults_average (toLowerCase : String → String) (s : State)
    (hne : s.responseTimes ≠ []) :
    (calculateResults toLowerCase s).averageRT =
        .int ((2 * s.responseTimes.sum + s.responseTimes.length) /
          (2 * s.responseTimes.length)) ∧
      (calculateResults toLowerCase s).averageRT =
        .int (round ((s.responseTimes.sum : ℚ) / (s.responseTimes.length : ℚ))) ∧
      (calculateResults toLowerCase { s with responseTimes := [300, 400, 500] }).averageRT =
        .int 400 := by
  have hlen : s.responseTimes.length ≠ 0 := fun h => hne (List.length_eq_zero.1 h)
  refine ⟨?_, ?_, ?_⟩
  · rw [averageRT_eq toLowerCase s hne, mathRound_div _ _ hlen]
  · rw [averageRT_eq toLowerCase s hne, mathRound_eq_round]
  · rw [averageRT_eq toLowerCase _ (by simp), mathRound_div _ _ (by simp)]
    simp

/-- Witness of C9: the response times 250 and 251 (mean 250.5, stored 251). -/
theorem calculateResults_average_witness :
    (calculateResults toLowerCaseASCII { initialState with
        responseTimes := [250, 251] }).averageRT = .int 251 :=
  (calculateResults_average toLowerCaseASCII { initialState with responseTimes := [250, 251] }
    (by decide)).1

/-- C10 does not hold as stated: with no response time `calculateResults` stores `NaN` as
`averageRT`. -/
theorem calculateResults_empty_counterexample :
    initialState.responseTimes = [] ∧
      (calculateResults toLowerCaseASCII initialState).averageRT = RoundedNumber.NaN := by
  decide

/-- C10, amended: `calculateResults` has no handling of an empty `responseTimes`: it signals no
error and stores `NaN` (`Math.round(0 / 0)`) as `averageRT`, the memory fields being set as
usual; `averageRT` is an integer whenever `responseTimes` is non-empty. -/
theorem calculateResults_empty_trials (toLowerCase : String → String) (s : State) :
    (s.responseTimes = [] →
        (calculateResults toLowerCase s).averageRT = RoundedNumber.NaN ∧
        (calculateResults toLowerCase s).memoryPercentage =
          10 * ((calculateResults toLowerCase s).memoryScore : Int)) ∧
      (s.responseTimes ≠ [] → ∃ v : Int, (calculateResults toLowerCase s).averageRT = .int v) := by
  refine ⟨?_, ?_⟩
  · intro h
    refine ⟨?_, ?_⟩
    · simp [calculateResults, h]
    · simp only [calculateResults]
      exact mathRound_tenths _
  · intro h
    exact ⟨_, averageRT_eq toLowerCase s h⟩

/-- Witness of C10, amended: the initial state (no response time) and a state with one. -/
theorem calculateResults_empty_trials_witness :
    ((calculateResults toLowerCaseASCII initialState).averageRT = RoundedNumber.NaN ∧
        (calculateResults toLowerCaseASCII initialState).memoryPercentage =
          10 * ((calculateResults toLowerCaseASCII initialState).memoryScore : Int)) ∧
      ∃ v : Int, (calculateResults toLowerCaseASCII { initialState with
        responseTimes := [300] }).averageRT = .int v :=
  ⟨(calculateResults_empty_trials toLowerCaseASCII initialState).1 rfl,
   (calculateResults_empty_trials toLowerCaseASCII { initialState with
      responseTimes := [300] }).2 (by decide)⟩

/-! ## Reaction-time phase -/

theorem mathRound_nonneg {x : ℚ} (hx : 0 ≤ x) : 0 ≤ mathRound x := by
  unfold mathRound
  exact Int.floor_nonneg.2 (by linarith)

theorem countP_erase_add {α : Type} [DecidableEq α] (p : α → Bool) (l : List α) (t : α)
    (ht : t ∈ l) : (l.erase t).countP p + (if p t then 1 else 0) = l.countP p := by
  have h := (List.perm_cons_erase ht).countP_eq p
  rw [h, List.countP_cons]

theorem pendingFeedback_armTimer (w : World) (kind : TimerKind) (delay : Int) :
    pendingFeedback (armTimer w kind delay) =
      pendingFeedback w + (if kind = TimerKind.feedback then 1 else 0) := by
  simp only [pendingFeedback, armTimer, List.countP_append, List.countP_cons, List.countP_nil]
  by_cases h : kind = TimerKind.feedback <;> simp [h]

theorem pendingFeedback_erase (w : World) (t : Timer) (ht : t ∈ w.timers) :
    pendingFeedback { w with timers := w.timers.erase t } +
      (if t.kind = TimerKind.feedback then 1 else 0) = pendingFeedback w := by
  have h := countP_erase_add (fun u : Timer => u.kind == TimerKind.feedback) w.timers t ht
  simpa [pendingFeedback] using h

theorem reactionInv_start (w : World) (env : Env) (htotal : w.state.totalTrials = 5)
    (hfresh : pendingFeedback w = 0) :
    ReactionInv (startFirstTrial (startResponseTimePhase w) env) := by
  have hp : pendingFeedback (startFirstTrial (startResponseTimePhase w) env) = 0 := by
    simp only [startFirstTrial, startTrial, startResponseTimePhase]
    simp only [pendingFeedback, armTimer] at hfresh ⊢
    simp [hfresh]
  refine ⟨?_, ?_, ?_, ?_, ?_, ?_, ?_, by omega⟩
  · simpa [startFirstTrial, startTrial, startResponseTimePhase, armTimer] using htotal
  · simp [startFirstTrial, startTrial, startResponseTimePhase, armTimer]
  · simp [startFirstTrial, startTrial, startResponseTimePhase, armTimer]
  · simp [startFirstTrial, startTrial, startResponseTimePhase, armTimer]
  · intro _; exact hp
  · intro _
    rw [hp]
    simp [startFirstTrial, startTrial, startResponseTimePhase, armTimer]
  · intro h
    simp [startFirstTrial, startTrial, startResponseTimePhase, armTimer] at h

theorem reactionInv_showStimulus (w : World) (env : Env) (t : Timer) (hinv : ReactionInv w)
    (ht : t ∈ w.timers) (hk : t.kind = TimerKind.showStimulus) :
    ReactionInv (showStimulus { w with timers := w.timers.erase t } env) := by
  obtain ⟨h1, h2, h3, h4, h5, h6, h7, h8⟩ := hinv
  have hp : pendingFeedback (showStimulus { w with timers := w.timers.erase t } env) =
      pendingFeedback w := by
    have h := pendingFeedback_erase w t ht
    rw [hk] at h
    simpa [showStimulus, pendingFeedback] using h
  refine ⟨h1, h2, h3, h4, ?_, ?_, ?_, ?_⟩
  · intro ha; rw [hp]; exact h5 ha
  · intro hr; rw [hp]; exact h6 hr
  · intro hr; rw [hp]; exact h7 hr
  · rw [hp]; exact h8

theorem reactionInv_click (w : World) (env : Env) (hinv : ReactionInv w)
    (hclick : ∀ onset, w.state.stimulusAppearTime = some onset → onset ≤ env.perfNow) :
    ReactionInv (handleStimulusClick w env) := by
  unfold handleStimulusClick
  split
  · exact hinv
  · rename_i hguard
    obtain ⟨h1, h2, h3, h4, h5, h6, h7, _⟩ := hinv
    have hact : flagTruthy w.state.isTrialActive = true := by
      cases h : flagTruthy w.state.isTrialActive <;> simp [h] at hguard ⊢
    have hp0 : pendingFeedback w = 0 := h5 hact
    have hroute : w.route ≠ Route.results := by
      intro hr
      have := (h7 hr).2.1
      rw [hact] at this
      exact Bool.noConfusion this
    have hnn : 0 ≤ mathRound (env.perfNow - w.state.stimulusAppearTime.getD 0) := by
      apply mathRound_nonneg
      cases hs : w.state.stimulusAppearTime with
      | none => simp [hs, timeTruthy] at hguard
      | some onset =>
        have := hclick onset hs
        simp only [Option.getD_some]
        linarith
    have hp : ∀ u : World, pendingFeedback u = 0 →
        pendingFeedback (showFeedbackAndContinue u) = 1 := by
      intro u hu
      rw [showFeedbackAndContinue, pendingFeedback_armTimer, hu]
      simp
    have hp1 := hp { w with state := { w.state with
      isTrialActive := some false, stimulusAppearTime := none,
      responseTimes := w.state.responseTimes ++
        [mathRound (env.perfNow - w.state.stimulusAppearTime.getD 0)] } } hp0
    refine ⟨h1, h2, h3, ?_, ?_, ?_, ?_, le_of_eq hp1⟩
    · intro x hx
      simp only [showFeedbackAndContinue, armTimer, List.mem_append, List.mem_singleton] at hx
      rcases hx with hx | hx
      · exact h4 x hx
      · rw [hx]; exact hnn
    · intro ha
      simp [showFeedbackAndContinue, armTimer, flagTruthy] at ha
    · intro _
      rw [hp1]
      have := h6 hroute
      rw [hp0] at this
      simp only [showFeedbackAndContinue, armTimer, List.length_append, List.length_singleton]
      omega
    · intro hr
      exact absurd hr hroute

theorem reactionInv_feedback (toLowerCase : String → String) (w : World) (env : Env) (t : Timer)
    (hinv : ReactionInv w) (ht : t ∈ w.timers) (hk : t.kind = TimerKind.feedback) :
    ReactionInv (feedbackContinue toLowerCase { w with timers := w.timers.erase t } env) := by
  obtain ⟨h1, h2, h3, h4, h5, h6, h7, h8⟩ := hinv
  have he := pendingFeedback_erase w t ht
  rw [hk] at he
  simp only [if_true] at he
  have hF : pendingFeedback w = 1 := by omega
  have hF0 : pendingFeedback { w with timers := w.timers.erase t } = 0 := by omega
  have hroute : w.route ≠ Route.results := by
    intro hr
    have := (h7 hr).2.2
    omega
  have hlen := h6 hroute
  rw [hF] at hlen
  have hact : flagTruthy w.state.isTrialActive = false := by
    cases h : flagTruthy w.state.isTrialActive
    · rfl
    · have := h5 h; omega
  unfold feedbackContinue
  split
  · rename_i hge
    have hge5 : w.state.currentTrial ≥ 5 := by
      have : w.state.currentTrial ≥ w.state.totalTrials := hge
      omega
    have hp : pendingFeedback (showResults toLowerCase { w with timers := w.timers.erase t }) =
        0 := by
      have h : pendingFeedback (showResults toLowerCase { w with timers := w.timers.erase t }) =
          pendingFeedback (armTimer (armTimer { w with
            timers := w.timers.erase t
            state := calculateResults toLowerCase w.state } TimerKind.view 300)
            TimerKind.view 500) := rfl
      rw [h, pendingFeedback_armTimer, pendingFeedback_armTimer]
      simp only [reduceCtorEq, if_false, add_zero]
      exact hF0
    refine ⟨?_, ?_, ?_, ?_, ?_, ?_, ?_, le_of_eq_of_le hp (Nat.zero_le 1)⟩
    · simpa [showResults, armTimer, calculateResults] using h1
    · simpa [showResults, armTimer, calculateResults] using h2
    · simpa [showResults, armTimer, calculateResults] using h3
    · simpa [showResults, armTimer, calculateResults] using h4
    · intro _; exact hp
    · intro hr
      simp [showResults] at hr
    · intro _
      refine ⟨?_, ?_, hp⟩
      · simp only [showResults, armTimer, calculateResults]
        omega
      · simpa [showResults, armTimer, calculateResults] using hact
  · rename_i hlt
    have hlt5 : w.state.currentTrial < 5 := by
      have : ¬ w.state.currentTrial ≥ w.state.totalTrials := hlt
      omega
    have hp : pendingFeedback (startTrial { w with
        timers := w.timers.erase t
        state := { w.state with currentTrial := w.state.currentTrial + 1 } } env) = 0 := by
      simp only [startTrial, pendingFeedback, armTimer] at hF0 ⊢
      simp [hF0]
    refine ⟨?_, ?_, ?_, ?_, ?_, ?_, ?_, le_of_eq_of_le hp (Nat.zero_le 1)⟩
    · simpa [startTrial, armTimer] using h1
    · simp [startTrial, armTimer]
    · simp only [startTrial, armTimer]
      omega
    · simpa [startTrial, armTimer] using h4
    · intro _; exact hp
    · intro _
      rw [hp]
      simp only [startTrial, armTimer]
      omega
    · intro hr
      simp only [startTrial, armTimer] at hr
      exact absurd hr hroute

theorem reactionInv_step (toLowerCase : String → String) (w w1 : World) (env : Env) (ev : Event)
    (hinv : ReactionInv w) (hok : reactionEventOk w env ev = true)
    (hstep : step toLowerCase w env ev = some w1) : ReactionInv w1 := by
  cases ev with
  | stimulusClick =>
    simp only [step, Option.some.injEq] at hstep
    subst hstep
    apply reactionInv_click w env hinv
    intro onset honset
    simpa [reactionEventOk, honset] using hok
  | timerFires handle =>
    simp only [step] at hstep
    simp only [reactionEventOk] at hok
    cases hf : w.timers.find? (fun t => t.id == handle) with
    | none => simp [hf] at hstep
    | some t =>
      rw [hf] at hstep hok
      simp only [Option.some.injEq] at hstep
      subst hstep
      have ht : t ∈ w.timers := List.mem_of_find?_eq_some hf
      simp only [Bool.or_eq_true, beq_iff_eq] at hok
      rcases hok with hk | hk
      · simp only [fireTimer, hk]
        exact reactionInv_showStimulus w env t hinv ht hk
      · simp only [fireTimer, hk]
        exact reactionInv_feedback toLowerCase w env t hinv ht hk
  | submitParticipant raw => simp [reactionEventOk] at hok
  | addWord raw => simp [reactionEventOk] at hok
  | removeWord index => simp [reactionEventOk] at hok
  | finishRecall => simp [reactionEventOk] at hok
  | ready => simp [reactionEventOk] at hok
  | restart => simp [reactionEventOk] at hok

theorem reactionInv_run (toLowerCase : String → String) (events : List (Env × Event))
    (w w1 : World) (hinv : ReactionInv w)
    (hrun : runReaction toLowerCase w events = some w1) : ReactionInv w1 := by
  induction events generalizing w with
  | nil =>
    simp only [runReaction, Option.some.injEq] at hrun
    exact hrun ▸ hinv
  | cons e rest ih =>
    obtain ⟨env, ev⟩ := e
    simp only [runReaction] at hrun
    split at hrun
    · rename_i hok
      cases hs : step toLowerCase w env ev with
      | none => simp [hs] at hrun
      | some w2 =>
        rw [hs] at hrun
        exact ih w2 (reactionInv_step toLowerCase w w2 env ev hinv hok hs) hrun
    · exact Option.noConfusion hrun

/-- The reaction-time phase entered while no feedback dwell is pending: driven by one ready
trigger followed by any sequence of pre-stimulus delay expiries, stimulus clicks no earlier than
the stimulus onset and feedback-dwell expiries, whenever the results page is shown
`responseTimes` has exactly `totalTrials = 5` entries and each entry is a non-negative integer.
The hypothesis `hfresh` is needed: `startResponseTimePhase` cancels no timer, and a dwell left
pending at entry advances `currentTrial` without a recorded response. -/
theorem reaction_complete_five (toLowerCase : String → String) (w0 : World) (env0 : Env)
    (events : List (Env × Event)) (w : World)
    (htotal : w0.state.totalTrials = 5) (hfresh : pendingFeedback w0 = 0)
    (hrun : runReaction toLowerCase (startFirstTrial (startResponseTimePhase w0) env0) events =
      some w)
    (hcomplete : w.route = Route.results) :
    w.state.responseTimes.length = w.state.totalTrials ∧ w.state.totalTrials = 5 ∧
      ∀ x ∈ w.state.responseTimes, 0 ≤ x := by
  have hinv := reactionInv_run toLowerCase events _ w
    (reactionInv_start w0 env0 htotal hfresh) hrun
  obtain ⟨h1, _, _, h4, _, _, h7, _⟩ := hinv
  exact ⟨by rw [h1]; exact (h7 hcomplete).1, h1, h4⟩

/-- The sample run of five trials on the freshly loaded page ends on the results page with the
response times 251, 300, 401, 275 and 0. -/
theorem reaction_complete_five_witness :
    initialWorld.state.totalTrials = 5 ∧ pendingFeedback initialWorld = 0 ∧
      runReaction toLowerCaseASCII (startFirstTrial (startResponseTimePhase initialWorld)
        (sampleEnv 0)) sampleTrials = some sampleFinal ∧
      sampleFinal.route = Route.results ∧
      sampleFinal.state.responseTimes = [251, 300, 401, 275, 0] ∧
      (sampleFinal.state.responseTimes.length = sampleFinal.state.totalTrials ∧
        sampleFinal.state.totalTrials = 5 ∧ ∀ x ∈ sampleFinal.state.responseTimes, 0 ≤ x) :=
  ⟨rfl, rfl, by decide!, by decide!, by decide!,
   reaction_complete_five toLowerCaseASCII initialWorld (sampleEnv 0) sampleTrials sampleFinal
     rfl rfl (by decide!) (by decide!)⟩

/-- C5 fails on the code: the reaction-time phase is entered by `startResponseTimePhase` while
the feedback dwell of an earlier trial is pending (the function cancels no timer).  After the
ready trigger the events are only delay expiries, clicks after the onset and dwell expiries; the
stale dwell advances `currentTrial` to 2 with nothing recorded, and the results page is shown
with `currentTrial = 5 = totalTrials` and only 4 entries in `responseTimes`. -/
theorem reaction_stale_dwell_four_entries :
    sampleFeedbackWorld.state.totalTrials = 5 ∧
      pendingFeedback sampleFeedbackWorld = 1 ∧
      (startResponseTimePhase sampleFeedbackWorld).state.responseTimes = [] ∧
      (startResponseTimePhase sampleFeedbackWorld).state.currentTrial = 1 ∧
      pendingFeedback (startResponseTimePhase sampleFeedbackWorld) = 1 ∧
      ((runReaction toLowerCaseASCII
          (startFirstTrial (startResponseTimePhase sampleFeedbackWorld) (sampleEnv 2100))
          sampleStaleDwell).map fun w =>
        (w.route, w.state.responseTimes, w.state.currentTrial, w.state.totalTrials)) =
        some (Route.results, [300, 300, 300, 300], 5, 5) := by
  decide!

theorem flagTruthy_eq_true (b : Option Bool) : flagTruthy b = true ↔ b = some true := by
  cases b with
  | none => simp [flagTruthy]
  | some v => simp [flagTruthy]

theorem handleStimulusClick_inactive (w : World) (env : Env)
    (h : flagTruthy w.state.isTrialActive = false) : handleStimulusClick w env = w := by
  simp [handleStimulusClick, h]

theorem handleStimulusClick_record (w : World) (env : Env) (onset : ℚ)
    (hact : w.state.isTrialActive = some true) (hon : w.state.stimulusAppearTime = some onset)
    (h0 : onset ≠ 0) :
    handleStimulusClick w env =
      showFeedbackAndContinue { w with state := { w.state with
        isTrialActive := some false, stimulusAppearTime := none,
        responseTimes := w.state.responseTimes ++ [mathRound (env.perfNow - onset)] } } := by
  simp [handleStimulusClick, hact, hon, flagTruthy, timeTruthy, h0]

theorem handleStimulusClick_idem (w : World) (env env2 : Env) :
    handleStimulusClick (handleStimulusClick w env) env2 = handleStimulusClick w env := by
  by_cases hg : (!flagTruthy w.state.isTrialActive || !timeTruthy w.state.stimulusAppearTime) = true
  · have h1 : handleStimulusClick w env = w := by simp [handleStimulusClick, hg]
    have h2 : handleStimulusClick w env2 = w := by simp [handleStimulusClick, hg]
    rw [h1, h2]
  · apply handleStimulusClick_inactive
    simp only [handleStimulusClick, if_neg hg]
    rfl

/-- C6: a click while no stimulus is active (`isTrialActive` not true, or `stimulusAppearTime`
unset) leaves the whole page state unchanged; a second click right after any click changes
nothing, so when the first click records a response time two consecutive clicks append exactly
that one entry to `responseTimes`, and in every state they append at most one. -/
theorem handleStimulusClick_single_capture (w : World) (env env2 : Env) :
    ((w.state.isTrialActive ≠ some true ∨ w.state.stimulusAppearTime = none) →
        handleStimulusClick w env = w) ∧
      handleStimulusClick (handleStimulusClick w env) env2 = handleStimulusClick w env ∧
      (∀ onset : ℚ, w.state.isTrialActive = some true →
        w.state.stimulusAppearTime = some onset → onset ≠ 0 →
        (handleStimulusClick w env).state.responseTimes =
            w.state.responseTimes ++ [mathRound (env.perfNow - onset)] ∧
          (handleStimulusClick (handleStimulusClick w env) env2).state.responseTimes =
            w.state.responseTimes ++ [mathRound (env.perfNow - onset)]) ∧
      (handleStimulusClick (handleStimulusClick w env) env2).state.responseTimes.length ≤
        w.state.responseTimes.length + 1 := by
  have hrec : ∀ onset : ℚ, w.state.isTrialActive = some true →
      w.state.stimulusAppearTime = some onset → onset ≠ 0 →
      (handleStimulusClick w env).state.responseTimes =
        w.state.responseTimes ++ [mathRound (env.perfNow - onset)] := by
    intro onset hact hon h0
    rw [handleStimulusClick_record w env onset hact hon h0]
    rfl
  refine ⟨?_, handleStimulusClick_idem w env env2, ?_, ?_⟩
  · rintro (h | h)
    · apply handleStimulusClick_inactive
      cases hf : flagTruthy w.state.isTrialActive
      · rfl
      · exact absurd ((flagTruthy_eq_true _).1 hf) h
    · simp [handleStimulusClick, h, timeTruthy]
  · intro onset hact hon h0
    refine ⟨hrec onset hact hon h0, ?_⟩
    rw [handleStimulusClick_idem]
    exact hrec onset hact hon h0
  · rw [handleStimulusClick_idem]
    unfold handleStimulusClick
    split
    · exact Nat.le_succ _
    · simp [showFeedbackAndContinue, armTimer]

/-- Witness of C6: a click on the freshly loaded page, and two clicks (at times 1751 and 1760) on
a page whose stimulus appeared at time 1500. -/
theorem handleStimulusClick_single_capture_witness :
    handleStimulusClick initialWorld (sampleEnv 1751) = initialWorld ∧
      (handleStimulusClick sampleStimulusShown (sampleEnv 1751)).state.responseTimes =
        [] ++ [mathRound (1751 - 1500)] ∧
      (handleStimulusClick (handleStimulusClick sampleStimulusShown (sampleEnv 1751))
        (sampleEnv 1760)).state.responseTimes = [] ++ [mathRound (1751 - 1500)] :=
  ⟨(handleStimulusClick_single_capture initialWorld (sampleEnv 1751) (sampleEnv 1760)).1
      (Or.inl (by decide)),
   (handleStimulusClick_single_capture sampleStimulusShown (sampleEnv 1751)
      (sampleEnv 1760)).2.2.1 1500 rfl rfl (by norm_num)⟩

/-! ## Restart -/

theorem restartExperiment_state_eq (w : World) :
    (restartExperiment w).state =
      { w.state with
        participantId := "", stimuliWords := [], recalledWords := [], currentTrial := 1,
        responseTimes := [] } := by
  unfold restartExperiment
  by_cases h1 : handleTruthy w.state.timerInterval = true <;>
    by_cases h2 : handleTruthy w.state.rtTimeout = true <;>
    simp [h1, h2, clearTimer]

/-- C11 does not hold as stated: after the sample session, whose results are a memory score of 2,
an accuracy of 20 and an average of 245 ms, `restartExperiment` leaves these three fields as they
are, whereas the initial state holds 0 in each; the state after the restart is not the initial
state. -/
theorem restartExperiment_results_kept_counterexample :
    runEvents toLowerCaseASCII sampleFeedbackWorld sampleToResults = some sampleResultsWorld ∧
      (restartExperiment sampleResultsWorld).state.memoryScore = 2 ∧
      initialState.memoryScore = 0 ∧
      (restartExperiment sampleResultsWorld).state.memoryPercentage = 20 ∧
      initialState.memoryPercentage = 0 ∧
      (restartExperiment sampleResultsWorld).state.averageRT = RoundedNumber.int 245 ∧
      initialState.averageRT = RoundedNumber.int 0 ∧
      (restartExperiment sampleResultsWorld).state ≠ initialState := by
  decide!

/-- C11, amended: after `restartExperiment`, `participantId` is the empty string, `stimuliWords`,
`recalledWords` and `responseTimes` are empty, `currentTrial` is 1 and `totalTrials` is 5; the
fields `memoryScore`, `memoryPercentage`, `averageRT` and `stimulusAppearTime` are not reset: each
keeps the value it had before the restart, and so does every other field of the state. -/
theorem restartExperiment_state (w : World) (htotal : w.state.totalTrials = 5) :
    (restartExperiment w).state.participantId = "" ∧
      (restartExperiment w).state.stimuliWords = [] ∧
      (restartExperiment w).state.recalledWords = [] ∧
      (restartExperiment w).state.responseTimes = [] ∧
      (restartExperiment w).state.currentTrial = 1 ∧
      (restartExperiment w).state.totalTrials = 5 ∧
      (restartExperiment w).state.memoryScore = w.state.memoryScore ∧
      (restartExperiment w).state.memoryPercentage = w.state.memoryPercentage ∧
      (restartExperiment w).state.averageRT = w.state.averageRT ∧
      (restartExperiment w).state.stimulusAppearTime = w.state.stimulusAppearTime ∧
      (restartExperiment w).state =
        { w.state with
          participantId := "", stimuliWords := [], recalledWords := [], currentTrial := 1,
          responseTimes := [] } := by
  have h := restartExperiment_state_eq w
  refine ⟨?_, ?_, ?_, ?_, ?_, ?_, ?_, ?_, ?_, ?_, h⟩ <;> rw [h]
  exact htotal

/-- Witness of C11, amended: the restart on the results page of the sample session. -/
theorem restartExperiment_state_witness :
    sampleResultsWorld.state.totalTrials = 5 ∧
      (restartExperiment sampleResultsWorld).state.participantId = "" ∧
      (restartExperiment sampleResultsWorld).state.currentTrial = 1 ∧
      (restartExperiment sampleResultsWorld).state.memoryScore =
        sampleResultsWorld.state.memoryScore :=
  have h := restartExperiment_state sampleResultsWorld (by decide!)
  ⟨by decide!, h.1, h.2.2.2.2.1, h.2.2.2.2.2.2.1⟩

/-- C12 fails on the code: in the sample session the restart is issued while the feedback dwell
of trial 1 (handle 5) is pending.  After `restartExperiment` that dwell is still pending, and
when it expires `currentTrial` becomes 2, a trial is active and a new pre-stimulus delay is
armed. -/
theorem restartExperiment_feedback_dwell_survives :
    runEvents toLowerCaseASCII initialWorld sampleToFeedback = some sampleFeedbackWorld ∧
      (sampleFeedbackWorld.timers.map fun t => (t.id, t.kind)) =
        [(3, TimerKind.view), (5, TimerKind.feedback)] ∧
      ((restartExperiment sampleFeedbackWorld).timers.map fun t => (t.id, t.kind)) =
        [(3, TimerKind.view), (5, TimerKind.feedback)] ∧
      (restartExperiment sampleFeedbackWorld).state.currentTrial = 1 ∧
      ((step toLowerCaseASCII (restartExperiment sampleFeedbackWorld) (sampleEnv 2751)
          (Event.timerFires 5)).map fun w =>
        (w.state.currentTrial, w.state.isTrialActive, w.timers.map fun t => (t.id, t.kind))) =
        some (2, some true, [(3, TimerKind.view), (6, TimerKind.showStimulus)]) := by
  decide!

/-! ## Random delay -/

/-- C13: for integers `min ≤ max` and every value `r` of `Math.random()`,
`getRandomDelay(min, max)` is `floor(r * (max - min + 1)) + min`, an integer between `min` and
`max`, and every integer of that range is returned for some `r`; the delay `startTrial` arms the
stimulus with lies between 1500 and 4000. -/
theorem getRandomDelay_range (min max : Int) (hle : min ≤ max) (r : RandomValue) :
    getRandomDelay min max r = ⌊r.val * (((max - min + 1 : Int)) : ℚ)⌋ + min ∧
      min ≤ getRandomDelay min max r ∧ getRandomDelay min max r ≤ max ∧
      (∀ d : Int, min ≤ d → d ≤ max → ∃ r' : RandomValue, getRandomDelay min max r' = d) ∧
      (∀ r' : RandomValue,
        1500 ≤ getRandomDelay 1500 4000 r' ∧ getRandomDelay 1500 4000 r' ≤ 4000) ∧
      (∀ (w : World) (env : Env), ∃ d : Int, 1500 ≤ d ∧ d ≤ 4000 ∧
        (startTrial w env).timers =
          w.timers ++ [{ id := w.nextTimerId, delay := d, kind := TimerKind.showStimulus }]) := by
  have hrange : ∀ (lo hi : Int), lo ≤ hi → ∀ r' : RandomValue,
      lo ≤ getRandomDelay lo hi r' ∧ getRandomDelay lo hi r' ≤ hi := by
    intro lo hi hlh r'
    have hm : (0 : ℚ) < (((hi - lo + 1 : Int)) : ℚ) := by
      have : (0 : Int) < hi - lo + 1 := by omega
      exact_mod_cast this
    have h0 : 0 ≤ mathFloor (r'.val * (((hi - lo + 1 : Int)) : ℚ)) :=
      Int.floor_nonneg.2 (mul_nonneg r'.nonneg (le_of_lt hm))
    have h1 : mathFloor (r'.val * (((hi - lo + 1 : Int)) : ℚ)) < hi - lo + 1 := by
      apply Int.floor_lt.2
      calc r'.val * (((hi - lo + 1 : Int)) : ℚ) < 1 * (((hi - lo + 1 : Int)) : ℚ) :=
            mul_lt_mul_of_pos_right r'.lt_one hm
        _ = (((hi - lo + 1 : Int)) : ℚ) := one_mul _
    unfold getRandomDelay
    constructor <;> omega
  refine ⟨rfl, (hrange min max hle r).1, (hrange min max hle r).2, ?_,
    hrange 1500 4000 (by decide), ?_⟩
  · intro d hd1 hd2
    have hm : (0 : ℚ) < (((max - min + 1 : Int)) : ℚ) := by
      have : (0 : Int) < max - min + 1 := by omega
      exact_mod_cast this
    have hn : (0 : ℚ) ≤ (((d - min : Int)) : ℚ) := by
      have : (0 : Int) ≤ d - min := by omega
      exact_mod_cast this
    have hlt : (((d - min : Int)) : ℚ) < (((max - min + 1 : Int)) : ℚ) := by
      have : d - min < max - min + 1 := by omega
      exact_mod_cast this
    refine ⟨{ val := (((d - min : Int)) : ℚ) / (((max - min + 1 : Int)) : ℚ)
              nonneg := div_nonneg hn (le_of_lt hm)
              lt_one := (div_lt_one hm).2 hlt }, ?_⟩
    simp only [getRandomDelay, mathFloor]
    rw [div_mul_cancel₀ _ (ne_of_gt hm), Int.floor_intCast]
    omega
  · intro w env
    exact ⟨getRandomDelay 1500 4000 (env.random 0),
      (hrange 1500 4000 (by decide) _).1, (hrange 1500 4000 (by decide) _).2, rfl⟩

/-- Witness of C13: the range 1500 to 4000 and the random value 0. -/
theorem getRandomDelay_range_witness :
    (1500 : Int) ≤ 4000 ∧ (1500 : Int) ≤ getRandomDelay 1500 4000 ((sampleEnv 0).random 0) ∧
      getRandomDelay 1500 4000 ((sampleEnv 0).random 0) ≤ 4000 :=
  have h := getRandomDelay_range 1500 4000 (by decide) ((sampleEnv 0).random 0)
  ⟨by decide, h.2.1, h.2.2.1⟩

/-! ## The shuffle as a map of index draws -/

theorem swapAt_length {α : Type} (a : List α) (i j : Nat) :
    (swapAt a i j).length = a.length := by
  unfold swapAt
  split <;> simp

theorem swapAt_getElem?_of_ne {α : Type} (a : List α) (i j p : Nat) (hi : p ≠ i) (hj : p ≠ j) :
    (swapAt a i j)[p]? = a[p]? := by
  unfold swapAt
  split
  · simp [List.getElem?_set, Ne.symm hi, Ne.symm hj]
  · rfl

theorem swapAt_getElem?_left {α : Type} (a : List α) (i j : Nat) (hi : i < a.length)
    (hj : j < a.length) : (swapAt a i j)[i]? = a[j]? := by
  unfold swapAt
  split
  · rename_i x y hx hy
    by_cases hij : j = i
    · subst hij
      simp [List.getElem?_set, hj, hx]
    · simp [List.getElem?_set, hij, hi, hy]
  · rename_i hne
    exact absurd (List.getElem?_eq_getElem hj) (hne _ _ (List.getElem?_eq_getElem hi))

theorem shuffleLoopDraws_length {α : Type} (draw : Nat → Nat) (i : Nat) (a : List α) :
    (shuffleLoopDraws draw i a).length = a.length := by
  induction i generalizing a with
  | zero => rfl
  | succ i ih => simp only [shuffleLoopDraws, ih, swapAt_length]

theorem shuffleLoopDraws_perm {α : Type} (draw : Nat → Nat) (i : Nat) (a : List α) :
    (shuffleLoopDraws draw i a).Perm a := by
  induction i generalizing a with
  | zero => exact List.Perm.refl _
  | succ i ih =>
    simp only [shuffleLoopDraws]
    exact (ih _).trans (swapAt_perm _ _ _)

theorem shuffleLoopDraws_congr {α : Type} (d d' : Nat → Nat) (i : Nat) (a : List α)
    (h : ∀ k, 1 ≤ k → k ≤ i → d k = d' k) :
    shuffleLoopDraws d i a = shuffleLoopDraws d' i a := by
  induction i generalizing a with
  | zero => rfl
  | succ i ih =>
    simp only [shuffleLoopDraws]
    rw [h (i + 1) (by omega) (le_refl _)]
    exact ih _ fun k h1 h2 => h k h1 (by omega)

theorem shuffleLoopDraws_above {α : Type} (d : Nat → Nat) (i : Nat) (a : List α) (p : Nat)
    (hd : ∀ k, 1 ≤ k → k ≤ i → d k ≤ k) (hp : i < p) :
    (shuffleLoopDraws d i a)[p]? = a[p]? := by
  induction i generalizing a with
  | zero => rfl
  | succ i ih =>
    simp only [shuffleLoopDraws]
    rw [ih _ (fun k h1 h2 => hd k h1 (by omega)) (by omega)]
    have := hd (i + 1) (by omega) (le_refl _)
    exact swapAt_getElem?_of_ne a (i + 1) (d (i + 1)) p (by omega) (by omega)

theorem shuffleLoopDraws_top {α : Type} (d : Nat → Nat) (i : Nat) (a : List α)
    (hd : ∀ k, 1 ≤ k → k ≤ i + 1 → d k ≤ k) (hi : i + 1 < a.length) :
    (shuffleLoopDraws d (i + 1) a)[i + 1]? = a[d (i + 1)]? := by
  simp only [shuffleLoopDraws]
  rw [shuffleLoopDraws_above d i _ (i + 1) (fun k h1 h2 => hd k h1 (by omega)) (by omega)]
  have := hd (i + 1) (by omega) (le_refl _)
  exact swapAt_getElem?_left a (i + 1) (d (i + 1)) hi (by omega)

theorem shuffleLoopDraws_injective {α : Type} (d d' : Nat → Nat) (i : Nat) (a : List α)
    (hnd : a.Nodup) (hi : i < a.length)
    (hd : ∀ k, 1 ≤ k → k ≤ i → d k ≤ k) (hd' : ∀ k, 1 ≤ k → k ≤ i → d' k ≤ k)
    (heq : shuffleLoopDraws d i a = shuffleLoopDraws d' i a) :
    ∀ k, 1 ≤ k → k ≤ i → d k = d' k := by
  induction i generalizing a with
  | zero => intro k h1 h2; omega
  | succ i ih =>
    have h1 := shuffleLoopDraws_top d i a hd hi
    have h2 := shuffleLoopDraws_top d' i a hd' hi
    rw [heq, h2] at h1
    have hj := hd (i + 1) (by omega) (le_refl _)
    have hj' := hd' (i + 1) (by omega) (le_refl _)
    have hlt : d (i + 1) < a.length := by omega
    have hlt' : d' (i + 1) < a.length := by omega
    rw [List.getElem?_eq_getElem hlt, List.getElem?_eq_getElem hlt'] at h1
    have htop : d (i + 1) = d' (i + 1) := ((hnd.getElem_inj_iff).1 (Option.some.inj h1)).symm
    simp only [shuffleLoopDraws] at heq
    rw [← htop] at heq
    have hrec := ih (swapAt a (i + 1) (d (i + 1)))
      ((swapAt_perm a _ _).nodup_iff.2 hnd) (by rw [swapAt_length]; omega)
      (fun k h1 h2 => hd k h1 (by omega)) (fun k h1 h2 => hd' k h1 (by omega)) heq
    intro k hk1 hk2
    by_cases hk : k = i + 1
    · rw [hk]; exact htop
    · exact hrec k hk1 (by omega)

theorem DrawSeq.index_le {n : Nat} (d : DrawSeq n) (i : Nat) : d.index i ≤ i := by
  unfold DrawSeq.index
  split
  · rename_i h
    have hlt : (d ⟨i - 1, by omega⟩).val < i - 1 + 2 := (d ⟨i - 1, by omega⟩).isLt
    omega
  · exact Nat.zero_le _

theorem DrawSeq.ext_index {n : Nat} (d d' : DrawSeq n)
    (h : ∀ i, 1 ≤ i → i ≤ n - 1 → d.index i = d'.index i) : d = d' := by
  funext k
  have hk := k.isLt
  have h1 := h (k.val + 1) (by omega) (by omega)
  have hc : 1 ≤ k.val + 1 ∧ k.val + 1 < n := by omega
  simp only [DrawSeq.index, hc, and_self, dif_pos, Nat.add_sub_cancel] at h1
  exact Fin.ext h1

theorem shuffleByDraws_injective {α : Type} (array : List α) (hnd : array.Nodup) :
    Function.Injective (shuffleByDraws array) := by
  intro d d' heq
  apply DrawSeq.ext_index
  by_cases hn : array.length = 0
  · intro i h1 h2; omega
  · exact shuffleLoopDraws_injective d.index d'.index (array.length - 1) array hnd (by omega)
      (fun k _ _ => d.index_le k) (fun k _ _ => d'.index_le k) heq

theorem prod_fin_add_two (m : Nat) : ∏ k : Fin m, (k.val + 2) = (m + 1).factorial := by
  induction m with
  | zero => rfl
  | succ m ih =>
    rw [Fin.prod_univ_castSucc]
    simp only [Fin.coe_castSucc, Fin.val_last]
    rw [ih, Nat.factorial_succ (m + 1)]
    ring

theorem card_drawSeq (n : Nat) : Fintype.card (DrawSeq n) = n.factorial := by
  rw [Fintype.card_pi]
  simp only [Fintype.card_fin]
  rw [prod_fin_add_two]
  cases n with
  | zero => rfl
  | succ m => rfl

theorem shuffleByDraws_surjective {α : Type} (array : List α) (hnd : array.Nodup)
    (l : List α) (hl : l.Perm array) : ∃ d : DrawSeq array.length, shuffleByDraws array d = l := by
  classical
  have hcard : (array.permutations.toFinset).card ≤
      (Finset.univ : Finset (DrawSeq array.length)).card := by
    rw [List.toFinset_card_of_nodup (List.nodup_permutations array hnd),
      List.length_permutations, Finset.card_univ, card_drawSeq]
  obtain ⟨d, _, hd⟩ := Finset.surj_on_of_inj_on_of_card_le
    (fun (d : DrawSeq array.length) (_ : d ∈ Finset.univ) => shuffleByDraws array d)
    (fun d _ => by
      rw [List.mem_toFinset, List.mem_permutations]
      exact shuffleLoopDraws_perm _ _ _)
    (fun d d' _ _ h => shuffleByDraws_injective array hnd h)
    hcard l (by rw [List.mem_toFinset, List.mem_permutations]; exact hl)
  exact ⟨d, hd.symm⟩

theorem shuffleLoop_eq_draws {α : Type} (random : Nat → RandomValue) (i call : Nat)
    (f : ShuffleFrame α) :
    (shuffleLoop random i call f).shuffled =
      shuffleLoopDraws (fun k => drawIndex (random (call + (i - k))) k) i f.shuffled := by
  induction i generalizing call f with
  | zero => rfl
  | succ i ih =>
    simp only [shuffleLoop, shuffleLoopDraws]
    rw [ih]
    simp only [Nat.sub_self, Nat.add_zero]
    apply shuffleLoopDraws_congr
    intro k h1 h2
    have : call + 1 + (i - k) = call + (i + 1 - k) := by omega
    simp only [this]

theorem drawsOf_index (n : Nat) (random : Nat → RandomValue) (i : Nat) (h1 : 1 ≤ i)
    (h2 : i < n) : (drawsOf n random).index i = drawIndex (random (n - 1 - i)) i := by
  have hc : 1 ≤ i ∧ i < n := ⟨h1, h2⟩
  simp only [DrawSeq.index, hc, and_self, dif_pos, drawsOf, Nat.sub_add_cancel h1]

theorem shuffleArray_eq_byDraws {α : Type} (array : List α) (random : Nat → RandomValue) :
    shuffleArray array random = shuffleByDraws array (drawsOf array.length random) := by
  unfold shuffleArray shuffleArrayFrame shuffleByDraws
  rw [shuffleLoop_eq_draws]
  apply shuffleLoopDraws_congr
  intro k h1 h2
  rw [drawsOf_index _ _ _ h1 (by omega)]
  simp

theorem drawsOf_surjective (n : Nat) (d : DrawSeq n) :
    ∃ random : Nat → RandomValue, drawsOf n random = d := by
  have hex : ∀ c : Nat, ∃ r : RandomValue, drawIndex r (n - 1 - c) = d.index (n - 1 - c) :=
    fun c => drawIndex_surjective (n - 1 - c)
      ⟨d.index (n - 1 - c), Nat.lt_succ_of_le (d.index_le _)⟩
  choose random hrandom using hex
  refine ⟨random, ?_⟩
  apply DrawSeq.ext_index
  intro i h1 h2
  rw [drawsOf_index _ _ _ h1 (by omega)]
  have h := hrandom (n - 1 - i)
  have hi : n - 1 - (n - 1 - i) = i := by omega
  rw [hi] at h
  exact h

/-- C14: `shuffleArray` is an unbiased Fisher-Yates shuffle.  For an array of `n` pairwise
distinct elements the returned array is a function of the index draws (one index `j ≤ i` for
each loop index `i` from `n - 1` down to `1`, every such sequence being drawn by some values of
`Math.random()`); that function is a bijection from the draw sequences onto the permutations of
the input, so each permutation comes from exactly one draw sequence, and there are `n!` draw
sequences and `n!` permutations: under uniform draws every permutation has the same chance. -/
theorem shuffleArray_unbiased {α : Type} (array : List α) (hnd : array.Nodup) :
    (∀ random : Nat → RandomValue,
        shuffleArray array random = shuffleByDraws array (drawsOf array.length random)) ∧
      (∀ d : DrawSeq array.length, ∃ random : Nat → RandomValue,
        drawsOf array.length random = d) ∧
      Function.Injective (shuffleByDraws array) ∧
      (∀ l : List α, l.Perm array ↔ ∃ d : DrawSeq array.length, shuffleByDraws array d = l) ∧
      (∀ l : List α, l.Perm array → ∃! d : DrawSeq array.length, shuffleByDraws array d = l) ∧
      Fintype.card (DrawSeq array.length) = array.length.factorial ∧
      Nat.card { l : List α // l.Perm array } = array.length.factorial := by
  have hinj := shuffleByDraws_injective array hnd
  have hsurj := shuffleByDraws_surjective array hnd
  have hperm : ∀ d : DrawSeq array.length, (shuffleByDraws array d).Perm array :=
    fun d => shuffleLoopDraws_perm _ _ _
  refine ⟨shuffleArray_eq_byDraws array, drawsOf_surjective array.length, hinj, ?_, ?_,
    card_drawSeq _, ?_⟩
  · intro l
    constructor
    · exact hsurj l
    · rintro ⟨d, rfl⟩
      exact hperm d
  · intro l hl
    obtain ⟨d, hd⟩ := hsurj l hl
    exact ⟨d, hd, fun d' hd' => hinj (hd'.trans hd.symm)⟩
  · have hbij : Function.Bijective
        (fun d : DrawSeq array.length =>
          (⟨shuffleByDraws array d, hperm d⟩ : { l : List α // l.Perm array })) := by
      constructor
      · intro d d' h
        exact hinj (congrArg Subtype.val h)
      · rintro ⟨l, hl⟩
        obtain ⟨d, hd⟩ := hsurj l hl
        exact ⟨d, Subtype.ext hd⟩
    rw [← Nat.card_eq_of_bijective _ hbij, Nat.card_eq_fintype_card, card_drawSeq]

/-- Witness of C14: the array of the three numbers 1, 2, 3 has 6 draw sequences, and the draws
made from random values that are all 0 return 2, 3, 1. -/
theorem shuffleArray_unbiased_witness :
    ([1, 2, 3] : List Nat).Nodup ∧
      shuffleArray ([1, 2, 3] : List Nat) (sampleEnv 0).random =
        shuffleByDraws [1, 2, 3] (drawsOf 3 (sampleEnv 0).random) ∧
      Function.Injective (shuffleByDraws ([1, 2, 3] : List Nat)) ∧
      Fintype.card (DrawSeq 3) = 6 :=
  have h := shuffleArray_unbiased ([1, 2, 3] : List Nat) (by decide)
  ⟨by decide, h.1 (sampleEnv 0).random, h.2.2.1, h.2.2.2.2.2.1⟩

end CognitiveTest
